import Mathlib

/-!
Shallow embedding of `giffer.py` (Scorbie/giffer): a Golly script that
encodes an animated GIF89a file of the current selection.

Modelling conventions:
* Python byte strings become `List Nat` (each element a byte value).
* Python ints become `Nat` where the source values are non-negative
  (sizes, times, codes) and `Int` where they may be negative
  (cell coordinates, offsets).  Python floor division/modulus on a
  possibly-negative dividend is `Int.fdiv` / `Int.fmod`.
* Fallible code (assertions, KeyError, TypeError, ZeroDivisionError,
  `range` step errors) returns `Option` / `Except`.
* The external Golly grid is a collaborator: a pure function
  `grid : Nat → Int → Int → Nat` giving the cell state at a generation
  count and coordinates; `g.run n` becomes adding `n` to the threaded
  generation counter.
* Two ghost observation fields are carried that do not influence any
  produced byte: the LZW state records the list of emitted
  `(code, codeWidth, newcode-at-emission)` triples, and the frame loop
  records the list of `(frameTime, generationObserved)` pairs.
-/

/-! ### ColorScheme (`giffer.py` lines 22-65) -/

/-- The two fields of `ColorScheme`: the color-table-size exponent and the
flat color table bytes. -/
structure ColorScheme where
  size : Nat
  table : List Nat
deriving DecidableEq, Repr

/-- The `while 3 * 2 ** (size+1) < n_colors: size += 1` loop of
`ColorScheme.__init__`, driven by a fuel argument (each call below passes
fuel that strictly dominates the number of iterations the Python loop
performs, see `csLoopF_eq`). -/
def csLoopF : Nat → Nat → Nat → Nat
  | 0, _, size => size
  | fuel + 1, n, size =>
    if 3 * 2 ^ (size + 1) < n then csLoopF fuel n (size + 1) else size

/-- `ColorScheme.__init__` (lines 37-47): run the size loop, then the
`assert 3 * 2 ** (size+1) == n_colors`; a failing assert is `none`. -/
def colorSchemeInit (table : List Nat) : Option ColorScheme :=
  let size := csLoopF table.length table.length 0
  if 3 * 2 ^ (size + 1) = table.length then some ⟨size, table⟩ else none

/-- The `lifewiki` palette bytes (lines 49-54). -/
def lifewikiTable : List Nat :=
  [0xFF, 0xFF, 0xFF, 0x00, 0x00, 0x00, 0xFF, 0xFF, 0xFF, 0xC6, 0xC6, 0xC6]

/-- The `lifewiki` color scheme; `colorSchemeInit lifewikiTable` evaluates to
`some lifewikiScheme` (theorem `lifewiki_init` below). -/
def lifewikiScheme : ColorScheme := ⟨1, lifewikiTable⟩

/-! ### LZW compression (`compress`, lines 232-294) -/

/-- The mutable locals of the `compress` loop, plus the ghost `trace` of
emissions.  `table` is the Python dict as an association list (keys are
inserted only when absent, so keys are unique and order is immaterial);
`trace` records `(code, codesize, newcode)` for every code placed into the
bit buffer, where `newcode` is the value of the `newcode` local at the
moment of that emission. -/
structure LZWState where
  table : List (List Nat × Nat)
  codesize : Nat
  newcode : Nat
  outputbuff : Nat
  outputbuffsize : Nat
  output : List Nat
  databuff : List Nat
  trace : List (Nat × Nat × Nat)
deriving DecidableEq, Repr

/-- The `while outputbuffsize >= 8` drain (lines 273-276 and 279-282),
driven by a fuel argument: append the low byte, shift it out, repeat.
Each iteration lowers `size` by 8, so fuel `size` always suffices
(`drainF_spec` is proved for every sufficient fuel). -/
def drainF : Nat → Nat → Nat → List Nat → Nat × Nat × List Nat
  | 0, buff, size, out => (buff, size, out)
  | fuel + 1, buff, size, out =>
    if 8 ≤ size then drainF fuel (buff / 256) (size - 8) (out ++ [buff % 256])
    else (buff, size, out)

/-- The drain loop at its natural fuel.  Returns
`(outputbuff, outputbuffsize, output)`. -/
def drain (buff size : Nat) (out : List Nat) : Nat × Nat × List Nat :=
  drainF size buff size out

/-- The initial state (lines 243-249): single-symbol dictionary,
`codesize = mincodesize + 1`, `newcode = ncolors + 2`, and the clear code
already sitting in the bit buffer. -/
def lzwInit (mcs : Nat) : LZWState :=
  { table := (List.range (2 ^ mcs)).map fun i => ([i], i)
    codesize := mcs + 1
    newcode := 2 ^ mcs + 2
    outputbuff := 2 ^ mcs
    outputbuffsize := mcs + 1
    output := []
    databuff := []
    trace := [(2 ^ mcs, mcs + 1, 2 ^ mcs + 2)] }

/-- One iteration of `for next_ in data` (lines 251-276).  Failures are
`none`: the `table[databuff]` lookup raising `KeyError` (reachable when a
pixel value is outside the palette alphabet), and the 12-bit dictionary
reset branch (lines 266-272), whose comprehension `{bchr(chr(i)): i ...}`
evaluates `bytes((chr(i),))` and raises `TypeError` on Python 3 before
any reset state is installed.  `c << n` is written `c * 2 ^ n`. -/
def lzwStep (s : LZWState) (next : Nat) : Option LZWState :=
  let newbuff := s.databuff ++ [next]
  match s.table.lookup newbuff with
  | some _ => some { s with databuff := newbuff }
  | none =>
    let table2 := (newbuff, s.newcode) :: s.table
    let newcode2 := s.newcode + 1
    match table2.lookup s.databuff with
    | none => none
    | some c =>
      let buff2 := s.outputbuff + c * 2 ^ s.outputbuffsize
      let size2 := s.outputbuffsize + s.codesize
      let trace2 := s.trace ++ [(c, s.codesize, newcode2)]
      if 2 ^ s.codesize < newcode2 then
        if s.codesize < 12 then
          let d := drain buff2 size2 s.output
          some { table := table2, codesize := s.codesize + 1, newcode := newcode2
                 outputbuff := d.1, outputbuffsize := d.2.1, output := d.2.2
                 databuff := [next], trace := trace2 }
        else none
      else
        let d := drain buff2 size2 s.output
        some { table := table2, codesize := s.codesize, newcode := newcode2
               outputbuff := d.1, outputbuffsize := d.2.1, output := d.2.2
               databuff := [next], trace := trace2 }

/-- The whole `for next_ in data` loop. -/
def lzwRun (s : LZWState) : List Nat → Option LZWState
  | [] => some s
  | x :: xs =>
    match lzwStep s x with
    | none => none
    | some s2 => lzwRun s2 xs

/-- End-of-input flush (lines 277-283): emit the code for the outstanding
prefix (`KeyError`, hence `none`, when `databuff` is not a key — in
particular on empty input, where `databuff = b''`), drain whole bytes, then
unconditionally append the remaining buffer as one more byte.  Returns the
raw compressed byte stream and the emission trace. -/
def lzwFinish (s : LZWState) : Option (List Nat × List (Nat × Nat × Nat)) :=
  match s.table.lookup s.databuff with
  | none => none
  | some c =>
    let buff2 := s.outputbuff + c * 2 ^ s.outputbuffsize
    let size2 := s.outputbuffsize + s.codesize
    let trace2 := s.trace ++ [(c, s.codesize, s.newcode)]
    let d := drain buff2 size2 s.output
    some (d.2.2 ++ [d.1], trace2)

/-- Raw compressed stream plus ghost emission trace. -/
def compressRawT (data : List Nat) (mcs : Nat) :
    Option (List Nat × List (Nat × Nat × Nat)) :=
  match lzwRun (lzwInit mcs) data with
  | none => none
  | some s => lzwFinish s

/-- The `output` list of `compress` just before sub-block slicing
(line 284). -/
def compressRaw (data : List Nat) (mcs : Nat) : Option (List Nat) :=
  (compressRawT data mcs).map Prod.fst

/-- The ghost emission trace of a `compress` run. -/
def compressTrace (data : List Nat) (mcs : Nat) :
    Option (List (Nat × Nat × Nat)) :=
  (compressRawT data mcs).map Prod.snd

/-- `for start in range(0, len(output), 255)` slicing (lines 285-288),
driven by a fuel argument; every step drops at least one element, so fuel
`l.length` always suffices. -/
def chunk255F : Nat → List Nat → List (List Nat)
  | _, [] => []
  | 0, _ :: _ => []
  | fuel + 1, x :: xs => (x :: xs).take 255 :: chunk255F fuel ((x :: xs).drop 255)

/-- The slicing loop at its natural fuel. -/
def chunk255 (l : List Nat) : List (List Nat) := chunk255F l.length l

/-- Lines 289-293: each word preceded by its length byte. -/
def subBlockBytes (blocks : List (List Nat)) : List Nat :=
  (blocks.map fun w => w.length :: w).flatten

/-- `compress(data, mincodesize)` (lines 232-294): mincodesize byte, the
length-prefixed sub-blocks, and the `b'\x00'` terminator. -/
def compress (data : List Nat) (mcs : Nat) : Option (List Nat) :=
  (compressRaw data mcs).map fun raw => mcs :: subBlockBytes (chunk255 raw) ++ [0]

/-- Width-sum of an emission trace: the total number of bits placed into
the bit buffer over the run. -/
def sumW (tr : List (Nat × Nat × Nat)) : Nat := (tr.map fun e => e.2.1).sum

/-- The formalization of the claimed code-width timing: at every emission,
either the next assignable dictionary code still fits in
`2 ^ codeWidth - 1`, or the 12-bit ceiling has been reached. -/
def claimedWidthOk (tr : List (Nat × Nat × Nat)) : Prop :=
  ∀ e ∈ tr, e.2.2 ≤ 2 ^ e.2.1 - 1 ∨ e.2.1 = 12

/-! ### GIF assembly (`makegif`, lines 148-224) -/

/-- An unsigned 16-bit field of `struct.pack("<H", n)`. -/
def u16le (n : Nat) : List Nat := [n % 256, n / 256 % 256]

/-- `b"GIF89a"` (line 164). -/
def gifHeader : List Nat := [71, 73, 70, 56, 57, 97]

/-- `struct.pack("<2HB2b", canvaswidth, canvasheight, colors.size+0x90, 0, 0)`
(line 165). -/
def screendescBytes (colors : ColorScheme) (w h : Nat) : List Nat :=
  u16le w ++ u16le h ++ [(colors.size + 0x90) % 256, 0, 0]

/-- The NETSCAPE2.0 looping application extension (line 166). -/
def applicBytes : List Nat :=
  [0x21, 0xFF, 0x0B] ++ [78, 69, 84, 83, 67, 65, 80, 69, 50, 46, 48] ++
    [3, 1, 0, 0, 0]

/-- `b"\x2C" + struct.pack("<4HB", 0, 0, canvaswidth, canvasheight, 0x00)`
(line 167). -/
def imagedescBytes (w h : Nat) : List Nat :=
  [0x2C] ++ u16le 0 ++ u16le 0 ++ u16le w ++ u16le h ++ [0x00]

/-- The graphics control extension of one frame (line 181). -/
def gceBytes (tpf : Nat) : List Nat :=
  [0x21, 0xF9] ++ [4, 0x00] ++ u16le tpf ++ [0, 0]

/-- The fields of the `Params` namedtuple that `makegif` reads (the
filename is consumed only by the out-of-scope file write). -/
structure Params where
  gens : Nat
  dx : Int
  dy : Int
  time_per_gen : Nat
  time_per_frame : Nat
  purecellsize : Nat
  gridwidth : Nat
deriving DecidableEq, Repr

/-- `cellsize = params.purecellsize + params.gridwidth` (line 152). -/
def cellsizeP (params : Params) : Nat := params.purecellsize + params.gridwidth

/-- `canvaswidth = cellsize*width + params.gridwidth` (line 154). -/
def canvasW (params : Params) (width : Nat) : Nat :=
  cellsizeP params * width + params.gridwidth

/-- `canvasheight = cellsize*height + params.gridwidth` (line 153). -/
def canvasH (params : Params) (height : Nat) : Nat :=
  cellsizeP params * height + params.gridwidth

/-- Python `range(a, b)` over integers (step 1), driven by a fuel
argument; fuel `(b - a).toNat` is exactly the iteration count. -/
def intRangeF : Nat → Int → Int → List Int
  | 0, _, _ => []
  | fuel + 1, a, b => if a < b then a :: intRangeF fuel (a + 1) b else []

/-- `range(a, b)` at its natural fuel. -/
def intRange (a b : Int) : List Int := intRangeF (b - a).toNat a b

/-- Python `range(start, stop, step)` over naturals with a positive step,
driven by a fuel argument; every step advances `start` by at least one, so
fuel `stop - start` always suffices.  The `step = 0` case (a `ValueError`
in Python) is guarded by the caller. -/
def pyRangeNatF : Nat → Nat → Nat → Nat → List Nat
  | 0, _, _, _ => []
  | fuel + 1, start, stop, step =>
    if start < stop ∧ 0 < step then
      start :: pyRangeNatF fuel (start + step) stop step
    else []

/-- `range(start, stop, step)` at its natural fuel. -/
def pyRangeNat (start stop step : Nat) : List Nat :=
  pyRangeNatF (stop - start) start stop step

/-- Everything the frame loop body reads: the palette, the selection
rectangle, the parameters, and the external grid source (as a pure
function of the cumulative generation count). -/
structure FrameCtx where
  colors : ColorScheme
  rectx : Int
  recty : Int
  width : Nat
  height : Nat
  params : Params
  grid : Nat → Int → Int → Nat

/-- One pixel row of the oversized cell image (lines 196-202): for each
cell column, `gridwidth` border pixels then `purecellsize` copies of the
cell state; a trailing border strip closes the row. -/
def rasterRow (C : FrameCtx) (gen : Nat) (dxcell : Int) (border : Nat)
    (y : Int) : List Nat :=
  (intRange (C.rectx + dxcell) (C.rectx + dxcell + (C.width + 1 : Nat))).foldl
    (fun row x =>
      row ++ List.replicate C.params.gridwidth border ++
        List.replicate C.params.purecellsize (C.grid gen x y)) []
    ++ List.replicate C.params.gridwidth border

/-- The frame raster (lines 182-210): compute the interpolated pixel
offset, split it into whole cells and sub-cell pixels, build the
oversized bordered cell image, crop a `canvaswidth × canvasheight`
window at the sub-pixel offset and flatten it row-major. -/
def renderFrame (C : FrameCtx) (t gen : Nat) : List Nat :=
  let cellsize := cellsizeP C.params
  let total := C.params.time_per_gen * C.params.gens
  let dxpx : Int := Int.fdiv (C.params.dx * cellsize * t) total
  let dypx : Int := Int.fdiv (C.params.dy * cellsize * t) total
  let dxcell := Int.fdiv dxpx cellsize
  let dxsub := Int.fmod dxpx cellsize
  let dycell := Int.fdiv dypx cellsize
  let dysub := Int.fmod dypx cellsize
  let border := 2 ^ (C.colors.size + 1) - 1
  let borderrow := List.replicate (canvasW C.params C.width + cellsize) border
  let cells :=
    (intRange (C.recty + dycell) (C.recty + dycell + (C.height + 1 : Nat))).foldl
      (fun cs y =>
        cs ++ List.replicate C.params.gridwidth borderrow ++
          List.replicate C.params.purecellsize (rasterRow C gen dxcell border y))
      []
      ++ List.replicate C.params.gridwidth borderrow
  let newcells :=
    ((cells.drop dysub.toNat).take (canvasH C.params C.height)).map
      fun row => (row.drop dxsub.toNat).take (canvasW C.params C.width)
  newcells.flatten

/-- The failure modes of a `makegif` run: the explicit canvas-size
`g.exit`, Python's `ValueError` on `range(0, total, 0)`, the
`ZeroDivisionError` of `divmod(dx_px, 0)` when `cellsize = 0`, and a
crash inside `compress`. -/
inductive GifErr where
  | canvasTooLarge
  | rangeStepZero
  | zeroDivision
  | compressFailed
deriving DecidableEq, Repr

/-- Lines 214-218: how many generations the grid source is told to run
after the frame at time `t` (`next_gen - current_gen` when positive,
otherwise no `g.run` call), applied to the cumulative generation
counter. -/
def nextGen (params : Params) (t gen : Nat) : Nat :=
  let cur := t / params.time_per_gen
  let next := (t + params.time_per_frame) / params.time_per_gen
  if cur < next then gen + (next - cur) else gen

/-- The `for frame_time in range(0, gif_total_time, ...)` body
(lines 179-218) over a precomputed list of frame times, threading the
cumulative generation counter.  Returns the per-frame byte chunks
(graphics control extension, image descriptor, compressed data) and the
ghost `(frameTime, generationObserved)` trace. -/
def frameLoop (C : FrameCtx) :
    List Nat → Nat → Except GifErr (List (List Nat) × List (Nat × Nat))
  | [], _ => Except.ok ([], [])
  | t :: ts, gen =>
    if cellsizeP C.params = 0 then Except.error GifErr.zeroDivision
    else
      match compress (renderFrame C t gen) (C.colors.size + 1) with
      | none => Except.error GifErr.compressFailed
      | some comp =>
        match frameLoop C ts (nextGen C.params t gen) with
        | Except.error e => Except.error e
        | Except.ok (chunks, tr) =>
          Except.ok
            ((gceBytes C.params.time_per_frame ++
                imagedescBytes (canvasW C.params C.width) (canvasH C.params C.height) ++
                comp) :: chunks,
              (t, gen) :: tr)

/-- `makegif` (lines 148-224) with the ghost frame trace: validate the
canvas size, then assemble signature, logical screen descriptor, global
color table, looping extension, the frames, and the trailer.  The file
write itself is out of scope; the function returns the byte stream that
would be written. -/
def makegifT (colors : ColorScheme) (rect : Int × Int × Nat × Nat)
    (params : Params) (grid : Nat → Int → Int → Nat) :
    Except GifErr (List Nat × List (Nat × Nat)) :=
  let C : FrameCtx :=
    ⟨colors, rect.1, rect.2.1, rect.2.2.1, rect.2.2.2, params, grid⟩
  if 65536 ≤ canvasW params C.width ∨ 65536 ≤ canvasH params C.height then
    Except.error GifErr.canvasTooLarge
  else if params.time_per_frame = 0 then Except.error GifErr.rangeStepZero
  else
    match frameLoop C (pyRangeNat 0 (params.time_per_gen * params.gens)
        params.time_per_frame) 0 with
    | Except.error e => Except.error e
    | Except.ok (chunks, tr) =>
      Except.ok
        (gifHeader ++
          (screendescBytes colors (canvasW params C.width) (canvasH params C.height) ++
            (colors.table ++ (applicBytes ++ (chunks.flatten ++ [0x3B])))),
          tr)

/-- The assembled GIF byte stream of a run. -/
def makegif (colors : ColorScheme) (rect : Int × Int × Nat × Nat)
    (params : Params) (grid : Nat → Int → Int → Nat) :
    Except GifErr (List Nat) :=
  (makegifT colors rect params grid).map Prod.fst

/-! ### Concrete configurations used by witnesses and counterexamples -/

/-- An all-dead external grid. -/
def grid0 : Nat → Int → Int → Nat := fun _ _ _ => 0

/-- A 1×1-cell selection at the origin. -/
def rect1 : Int × Int × Nat × Nat := (0, 0, 1, 1)

/-- One generation, 1 ms per generation and per frame, 1-pixel cells, no
gridlines. -/
def params1 : Params :=
  { gens := 1, dx := 0, dy := 0, time_per_gen := 1, time_per_frame := 1
    purecellsize := 1, gridwidth := 0 }

/-- Like `params1` but 2 ms per frame, so the frame step exceeds the
total duration. -/
def params4 : Params :=
  { gens := 1, dx := 0, dy := 0, time_per_gen := 1, time_per_frame := 2
    purecellsize := 1, gridwidth := 0 }

/-- 14-pixel cells with 2-pixel gridlines (the spec's canvas-bound
example). -/
def params8 : Params :=
  { gens := 1, dx := 0, dy := 0, time_per_gen := 1, time_per_frame := 1
    purecellsize := 14, gridwidth := 2 }

/-- Two generations at 1 ms each, one frame per generation. -/
def params9 : Params :=
  { gens := 2, dx := 0, dy := 0, time_per_gen := 1, time_per_frame := 1
    purecellsize := 1, gridwidth := 0 }

/-- The run-long invariant of the `compress` loop state: dictionary codes
stay below `newcode`, `newcode` fits the current code width, the width
stays within `[mincodesize+1, 12]`, the bit buffer holds exactly
`outputbuffsize` significant bits, whole emitted bytes plus buffered bits
account for every emitted code bit, and every trace entry was emitted at
a width that holds it. -/
def lzwInv (mcs : Nat) (s : LZWState) : Prop :=
  (∀ p ∈ s.table, p.2 < s.newcode) ∧
  s.newcode ≤ 2 ^ s.codesize ∧
  mcs + 1 ≤ s.codesize ∧
  s.codesize ≤ 12 ∧
  s.outputbuff < 2 ^ s.outputbuffsize ∧
  8 * s.output.length + s.outputbuffsize = sumW s.trace ∧
  (∀ e ∈ s.trace, e.1 < 2 ^ e.2.1 ∧ mcs + 1 ≤ e.2.1 ∧ e.2.1 ≤ 12 ∧
    e.2.2 ≤ 2 ^ e.2.1 + 1)

/-- A reachable pre-reset state: full 12-bit dictionary position with a
pending prefix, used to exhibit the crash of the reset branch. -/
def lzwResetState : LZWState :=
  { table := [([0], 0)], codesize := 12, newcode := 4096, outputbuff := 0
    outputbuffsize := 0, output := [], databuff := [0], trace := [] }

/-- The byte stream of the `params1` run (`makegifT lifewikiScheme rect1
params1 grid0` succeeds with this output and frame trace `[(0, 0)]`). -/
def gifOut1 : List Nat :=
  [71, 73, 70, 56, 57, 97, 1, 0, 1, 0, 145, 0, 0, 255, 255, 255, 0, 0, 0,
   255, 255, 255, 198, 198, 198, 33, 255, 11, 78, 69, 84, 83, 67, 65, 80,
   69, 50, 46, 48, 3, 1, 0, 0, 0, 33, 249, 4, 0, 1, 0, 0, 0, 44, 0, 0, 0,
   0, 1, 0, 1, 0, 0, 2, 1, 4, 0, 59]

/-- The byte stream of the `params4` run (frame trace `[(0, 0)]`). -/
def gifOut4 : List Nat :=
  [71, 73, 70, 56, 57, 97, 1, 0, 1, 0, 145, 0, 0, 255, 255, 255, 0, 0, 0,
   255, 255, 255, 198, 198, 198, 33, 255, 11, 78, 69, 84, 83, 67, 65, 80,
   69, 50, 46, 48, 3, 1, 0, 0, 0, 33, 249, 4, 0, 2, 0, 0, 0, 44, 0, 0, 0,
   0, 1, 0, 1, 0, 0, 2, 1, 4, 0, 59]

/-- The byte stream of the `params9` run (frame trace
`[(0, 0), (1, 1)]`). -/
def gifOut9 : List Nat :=
  [71, 73, 70, 56, 57, 97, 1, 0, 1, 0, 145, 0, 0, 255, 255, 255, 0, 0, 0,
   255, 255, 255, 198, 198, 198, 33, 255, 11, 78, 69, 84, 83, 67, 65, 80,
   69, 50, 46, 48, 3, 1, 0, 0, 0, 33, 249, 4, 0, 1, 0, 0, 0, 44, 0, 0, 0,
   0, 1, 0, 1, 0, 0, 2, 1, 4, 0, 33, 249, 4, 0, 1, 0, 0, 0, 44, 0, 0, 0,
   0, 1, 0, 1, 0, 0, 2, 1, 4, 0, 59]

theorem lifewiki_init : colorSchemeInit lifewikiTable = some lifewikiScheme := by
  decide

theorem lookup_mem {l : List (List Nat × Nat)} {a : List Nat} {v : Nat}
    (h : l.lookup a = some v) : (a, v) ∈ l := by
  induction l with
  | nil => simp [List.lookup] at h
  | cons p tl ih =>
    obtain ⟨k, b⟩ := p
    rw [List.lookup_cons] at h
    by_cases hk : a = k
    · subst hk
      simp at h
      subst h
      exact List.mem_cons_self _ _
    · have hne : (a == k) = false := beq_eq_false_iff_ne.mpr hk
      rw [hne] at h
      exact List.mem_cons_of_mem _ (ih h)

theorem lookup_none_of_keys_ne {l : List (List Nat × Nat)}
    (h : ∀ p ∈ l, p.1 ≠ ([] : List Nat)) : l.lookup [] = none := by
  induction l with
  | nil => rfl
  | cons p tl ih =>
    obtain ⟨k, b⟩ := p
    rw [List.lookup_cons]
    have hk : k ≠ [] := h (k, b) (List.mem_cons_self _ _)
    have hne : (([] : List Nat) == k) = false := beq_eq_false_iff_ne.mpr (Ne.symm hk)
    rw [hne]
    exact ih fun p hp => h p (List.mem_cons_of_mem _ hp)

theorem buf_bound {a c m n : Nat} (ha : a < 2 ^ m) (hc : c < 2 ^ n) :
    a + c * 2 ^ m < 2 ^ (m + n) := by
  have h1 : c * 2 ^ m ≤ (2 ^ n - 1) * 2 ^ m := Nat.mul_le_mul_right _ (by omega)
  have h2 : (2 ^ n - 1) * 2 ^ m + 2 ^ m = 2 ^ (m + n) := by
    have hn : 1 ≤ 2 ^ n := Nat.one_le_two_pow
    have hmn : 2 ^ n * 2 ^ m = 2 ^ (m + n) := by
      rw [← pow_add]
      ring_nf
    rw [Nat.sub_mul, one_mul]
    have hle : 2 ^ m ≤ 2 ^ n * 2 ^ m := Nat.le_mul_of_pos_left _ (by positivity)
    omega
  omega

theorem drainF_spec (fuel : Nat) :
    ∀ (buff size : Nat) (out : List Nat), size ≤ fuel → buff < 2 ^ size →
    (drainF fuel buff size out).1 < 2 ^ (drainF fuel buff size out).2.1 ∧
    (drainF fuel buff size out).2.1 < 8 ∧
    8 * (drainF fuel buff size out).2.2.length + (drainF fuel buff size out).2.1 =
      8 * out.length + size := by
  induction fuel with
  | zero =>
    intro buff size out hf hb
    have hz : size = 0 := by omega
    subst hz
    refine ⟨hb, ?_, rfl⟩
    show (0 : Nat) < 8
    omega
  | succ fuel ih =>
    intro buff size out hf hb
    by_cases hs : 8 ≤ size
    · have hb2 : buff / 256 < 2 ^ (size - 8) := by
        have h28 : 2 ^ (size - 8) * 256 = 2 ^ size := by
          have he : 2 ^ (size - 8) * 2 ^ 8 = 2 ^ (size - 8 + 8) := (pow_add 2 _ 8).symm
          have h8 : size - 8 + 8 = size := by omega
          rw [h8] at he
          simpa using he
        rw [Nat.div_lt_iff_lt_mul (by norm_num), h28]
        exact hb
      have ihs := ih (buff / 256) (size - 8) (out ++ [buff % 256]) (by omega) hb2
      simp only [drainF, hs, if_true]
      refine ⟨ihs.1, ihs.2.1, ?_⟩
      have h3 := ihs.2.2
      simp only [List.length_append, List.length_cons, List.length_nil] at h3
      omega
    · simp only [drainF]
      rw [if_neg hs]
      refine ⟨hb, ?_, rfl⟩
      show size < 8
      omega

theorem drain_spec (buff size : Nat) (out : List Nat) (h : buff < 2 ^ size) :
    (drain buff size out).1 < 2 ^ (drain buff size out).2.1 ∧
    (drain buff size out).2.1 < 8 ∧
    8 * (drain buff size out).2.2.length + (drain buff size out).2.1 =
      8 * out.length + size :=
  drainF_spec size buff size out (le_refl _) h

theorem sumW_append (tr : List (Nat × Nat × Nat)) (a b c : Nat) :
    sumW (tr ++ [(a, b, c)]) = sumW tr + b := by
  simp [sumW]

theorem lzwInv_init {mcs : Nat} (h1 : 1 ≤ mcs) (h2 : mcs ≤ 11) :
    lzwInv mcs (lzwInit mcs) := by
  have hp : 2 ≤ 2 ^ mcs := by
    calc 2 = 2 ^ 1 := rfl
    _ ≤ 2 ^ mcs := Nat.pow_le_pow_right (by omega) h1
  have hpow : 2 ^ (mcs + 1) = 2 * 2 ^ mcs := by ring
  unfold lzwInv lzwInit
  simp only
  refine ⟨?_, by omega, le_refl _, by omega, by omega, ?_, ?_⟩
  · intro p hp2
    simp only [List.mem_map, List.mem_range] at hp2
    obtain ⟨i, hi, rfl⟩ := hp2
    omega
  · simp [sumW]
  · intro e he
    simp only [List.mem_singleton] at he
    subst he
    refine ⟨?_, ?_, ?_, ?_⟩
    · show 2 ^ mcs < 2 ^ (mcs + 1)
      omega
    · show mcs + 1 ≤ mcs + 1
      exact le_refl _
    · show mcs + 1 ≤ 12
      omega
    · show 2 ^ mcs + 2 ≤ 2 ^ (mcs + 1) + 1
      omega

theorem lzwStep_inv {mcs : Nat} {s s2 : LZWState} {x : Nat}
    (hinv : lzwInv mcs s) (h : lzwStep s x = some s2) : lzwInv mcs s2 := by
  obtain ⟨htab, hnc, hcs1, hcs2, hbuf, hacc, htr⟩ := hinv
  have hone : 1 ≤ 2 ^ s.codesize := Nat.one_le_two_pow
  have hpow : 2 ^ (s.codesize + 1) = 2 * 2 ^ s.codesize := by ring
  cases hl1 : s.table.lookup (s.databuff ++ [x]) with
  | some v =>
    simp only [lzwStep, hl1] at h
    obtain rfl : { s with databuff := s.databuff ++ [x] } = s2 := by
      injection h
    exact ⟨htab, hnc, hcs1, hcs2, hbuf, hacc, htr⟩
  | none =>
    cases hl2 : ((s.databuff ++ [x], s.newcode) :: s.table).lookup s.databuff with
    | none =>
      simp only [lzwStep, hl1, hl2] at h
      exact Option.noConfusion h
    | some c =>
      have hc : c < s.newcode := by
        have hmem := lookup_mem hl2
        rcases List.mem_cons.mp hmem with heq | hmem2
        · exfalso
          have h1 := congrArg Prod.fst heq
          have hlen := congrArg List.length h1
          simp at hlen
        · exact htab _ hmem2
      have hc2 : c < 2 ^ s.codesize := lt_of_lt_of_le hc hnc
      have hbd : s.outputbuff + c * 2 ^ s.outputbuffsize <
          2 ^ (s.outputbuffsize + s.codesize) := buf_bound hbuf hc2
      have hds := drain_spec (s.outputbuff + c * 2 ^ s.outputbuffsize)
        (s.outputbuffsize + s.codesize) s.output hbd
      have htab2 : ∀ p ∈ ((s.databuff ++ [x], s.newcode) :: s.table),
          p.2 < s.newcode + 1 := by
        intro p hp
        rcases List.mem_cons.mp hp with rfl | hp2
        · omega
        · have := htab _ hp2
          omega
      have htr2 : ∀ e ∈ s.trace ++ [(c, s.codesize, s.newcode + 1)],
          e.1 < 2 ^ e.2.1 ∧ mcs + 1 ≤ e.2.1 ∧ e.2.1 ≤ 12 ∧
            e.2.2 ≤ 2 ^ e.2.1 + 1 := by
        intro e he
        rcases List.mem_append.mp he with he1 | he2
        · exact htr _ he1
        · simp only [List.mem_singleton] at he2
          subst he2
          refine ⟨hc2, hcs1, hcs2, ?_⟩
          show s.newcode + 1 ≤ 2 ^ s.codesize + 1
          omega
      have hacc2 : 8 * (drain (s.outputbuff + c * 2 ^ s.outputbuffsize)
            (s.outputbuffsize + s.codesize) s.output).2.2.length +
          (drain (s.outputbuff + c * 2 ^ s.outputbuffsize)
            (s.outputbuffsize + s.codesize) s.output).2.1 =
          sumW (s.trace ++ [(c, s.codesize, s.newcode + 1)]) := by
        rw [sumW_append]
        have := hds.2.2
        omega
      by_cases hb1 : 2 ^ s.codesize < s.newcode + 1
      · by_cases hb2 : s.codesize < 12
        · simp only [lzwStep, hl1, hl2, if_pos hb1, if_pos hb2] at h
          obtain rfl := Option.some.inj h
          refine ⟨htab2, ?_, ?_, ?_, hds.1, hacc2, htr2⟩
          · show s.newcode + 1 ≤ 2 ^ (s.codesize + 1)
            omega
          · show mcs + 1 ≤ s.codesize + 1
            omega
          · show s.codesize + 1 ≤ 12
            omega
        · simp only [lzwStep, hl1, hl2, if_pos hb1, if_neg hb2] at h
          exact Option.noConfusion h
      · simp only [lzwStep, hl1, hl2, if_neg hb1] at h
        obtain rfl := Option.some.inj h
        refine ⟨htab2, ?_, hcs1, hcs2, hds.1, hacc2, htr2⟩
        show s.newcode + 1 ≤ 2 ^ s.codesize
        omega

theorem lzwRun_inv {mcs : Nat} : ∀ {data : List Nat} {s s2 : LZWState},
    lzwInv mcs s → lzwRun s data = some s2 → lzwInv mcs s2 := by
  intro data
  induction data with
  | nil =>
    intro s s2 hinv h
    obtain rfl : s = s2 := by
      simpa [lzwRun] using h
    exact hinv
  | cons x xs ih =>
    intro s s2 hinv h
    cases hst : lzwStep s x with
    | none => simp [lzwRun, hst] at h
    | some s3 =>
      simp only [lzwRun, hst] at h
      exact ih (lzwStep_inv hinv hst) h

theorem lzwFinish_spec {mcs : Nat} {s : LZWState} {raw : List Nat}
    {tr : List (Nat × Nat × Nat)} (hinv : lzwInv mcs s)
    (h : lzwFinish s = some (raw, tr)) :
    (∀ e ∈ tr, e.1 < 2 ^ e.2.1 ∧ mcs + 1 ≤ e.2.1 ∧ e.2.1 ≤ 12 ∧
      e.2.2 ≤ 2 ^ e.2.1 + 1) ∧
    raw.length = sumW tr / 8 + 1 ∧
    (sumW tr % 8 = 0 → raw.getLast? = some 0) ∧
    raw ≠ [] := by
  obtain ⟨htab, hnc, hcs1, hcs2, hbuf, hacc, htr⟩ := hinv
  cases hl : s.table.lookup s.databuff with
  | none =>
    simp only [lzwFinish, hl] at h
    exact Option.noConfusion h
  | some c =>
    have hc : c < s.newcode := htab _ (lookup_mem hl)
    have hc2 : c < 2 ^ s.codesize := lt_of_lt_of_le hc hnc
    have hbd : s.outputbuff + c * 2 ^ s.outputbuffsize <
        2 ^ (s.outputbuffsize + s.codesize) := buf_bound hbuf hc2
    have hds := drain_spec (s.outputbuff + c * 2 ^ s.outputbuffsize)
      (s.outputbuffsize + s.codesize) s.output hbd
    simp only [lzwFinish, hl] at h
    obtain ⟨h1, h2⟩ := Prod.mk.injEq _ _ _ _ ▸ Option.some.inj h
    subst h1
    subst h2
    have hsum : sumW (s.trace ++ [(c, s.codesize, s.newcode)]) =
        8 * (drain (s.outputbuff + c * 2 ^ s.outputbuffsize)
          (s.outputbuffsize + s.codesize) s.output).2.2.length +
        (drain (s.outputbuff + c * 2 ^ s.outputbuffsize)
          (s.outputbuffsize + s.codesize) s.output).2.1 := by
      rw [sumW_append]
      have := hds.2.2
      omega
    refine ⟨?_, ?_, ?_, by simp⟩
    · intro e he
      rcases List.mem_append.mp he with he1 | he2
      · exact htr _ he1
      · simp only [List.mem_singleton] at he2
        subst he2
        refine ⟨hc2, hcs1, hcs2, ?_⟩
        show s.newcode ≤ 2 ^ s.codesize + 1
        omega
    · rw [hsum]
      simp only [List.length_append, List.length_cons, List.length_nil]
      have := hds.2.1
      omega
    · intro hmod
      rw [hsum] at hmod
      have hz : (drain (s.outputbuff + c * 2 ^ s.outputbuffsize)
          (s.outputbuffsize + s.codesize) s.output).2.1 = 0 := by
        have := hds.2.1
        omega
      have hb0 : (drain (s.outputbuff + c * 2 ^ s.outputbuffsize)
          (s.outputbuffsize + s.codesize) s.output).1 = 0 := by
        have := hds.1
        rw [hz] at this
        omega
      rw [← hb0]
      exact List.getLast?_concat _

theorem compressRawT_spec {data : List Nat} {mcs : Nat} {raw : List Nat}
    {tr : List (Nat × Nat × Nat)} (h1 : 1 ≤ mcs) (h2 : mcs ≤ 11)
    (h : compressRawT data mcs = some (raw, tr)) :
    (∀ e ∈ tr, e.1 < 2 ^ e.2.1 ∧ mcs + 1 ≤ e.2.1 ∧ e.2.1 ≤ 12 ∧
      e.2.2 ≤ 2 ^ e.2.1 + 1) ∧
    raw.length = sumW tr / 8 + 1 ∧
    (sumW tr % 8 = 0 → raw.getLast? = some 0) ∧
    raw ≠ [] := by
  cases hr : lzwRun (lzwInit mcs) data with
  | none =>
    simp only [compressRawT, hr] at h
    exact Option.noConfusion h
  | some s =>
    simp only [compressRawT, hr] at h
    exact lzwFinish_spec (lzwRun_inv (lzwInv_init h1 h2) hr) h

/-- C3 (amended): during `compress` the code width increases by 1 bit the
instant the next assignable dictionary code value would exceed
`2^codeWidth` (one past the claim's `2^codeWidth - 1`: the check
`newcode > 2**codesize` runs after each insertion and emission), never
exceeding 12 bits; consequently every emitted code value is representable
in the code width at which it is written, the width stays in
`[minCodeSize+1, 12]`, and at any emission the next assignable code
exceeds `2^width` by at most one. -/
theorem compress_codewidth_amended (data : List Nat) (mcs : Nat)
    (tr : List (Nat × Nat × Nat)) (h1 : 1 ≤ mcs) (h2 : mcs ≤ 11)
    (h : compressTrace data mcs = some tr) :
    ∀ e ∈ tr, e.1 < 2 ^ e.2.1 ∧ mcs + 1 ≤ e.2.1 ∧ e.2.1 ≤ 12 ∧
      e.2.2 ≤ 2 ^ e.2.1 + 1 := by
  unfold compressTrace at h
  rcases Option.map_eq_some'.mp h with ⟨p, hp, he⟩
  obtain ⟨raw, tr0⟩ := p
  simp only at he
  subst he
  exact (compressRawT_spec h1 h2 hp).1

/-- C3 (counterexample): on input `[0,1,2,0]` with `minCodeSize = 2`, the
third data code is emitted while the next assignable code (9) already
exceeds `2^codeWidth - 1 = 7` at width 3, so the claimed timing (width
grows the instant the next assignable code would exceed
`2^codeWidth - 1`) does not hold of the code. -/
theorem compress_codewidth_ctex :
    ∃ tr, compressTrace [0, 1, 2, 0] 2 = some tr ∧ ¬ claimedWidthOk tr := by
  refine ⟨[(4, 3, 6), (0, 3, 7), (1, 3, 8), (2, 3, 9), (0, 4, 9)], by decide, ?_⟩
  intro hcl
  exact absurd (hcl (1, 3, 8) (by decide)) (by decide)

/-- Witness for `compress_codewidth_amended` at
`data = [0,1,2,0]`, `minCodeSize = 2`. -/
theorem compress_codewidth_amended_witness :
    1 ≤ 2 ∧ 2 ≤ 11 ∧
      compressTrace [0, 1, 2, 0] 2 =
        some [(4, 3, 6), (0, 3, 7), (1, 3, 8), (2, 3, 9), (0, 4, 9)] ∧
      ∀ e ∈ ([(4, 3, 6), (0, 3, 7), (1, 3, 8), (2, 3, 9), (0, 4, 9)] :
          List (Nat × Nat × Nat)),
        e.1 < 2 ^ e.2.1 ∧ 2 + 1 ≤ e.2.1 ∧ e.2.1 ≤ 12 ∧ e.2.2 ≤ 2 ^ e.2.1 + 1 :=
  ⟨by decide, by decide, by decide,
    compress_codewidth_amended [0, 1, 2, 0] 2 _ (by decide) (by decide) (by decide)⟩

/-- C6 (amended): at end of input `compress` flushes the final code and
then the buffered bits, but the final `output.append(outputbuff)` is
unconditional, so the raw stream always holds `floor(totalBits/8) + 1`
bytes: when the bit count is not a multiple of 8 this is exactly the
padded-final-partial-byte behaviour the claim describes, but when the bit
count is a multiple of 8 one extra `0x00` byte beyond the claim's count is
appended. -/
theorem compress_flush_amended (data : List Nat) (mcs : Nat) (raw : List Nat)
    (tr : List (Nat × Nat × Nat)) (h1 : 1 ≤ mcs) (h2 : mcs ≤ 11)
    (h : compressRawT data mcs = some (raw, tr)) :
    raw.length = sumW tr / 8 + 1 ∧
    (sumW tr % 8 = 0 → raw.getLast? = some 0) :=
  ⟨(compressRawT_spec h1 h2 h).2.1, (compressRawT_spec h1 h2 h).2.2.1⟩

/-- C6 (counterexample): with `minCodeSize = 7` and input `[0]` the two
emitted codes hold 16 bits, a whole number of bytes, yet the raw stream is
3 bytes long — one more than the `ceil(16/8) = 2` bytes the claim allows. -/
theorem compress_flush_ctex :
    ∃ raw tr, compressRawT [0] 7 = some (raw, tr) ∧
      raw.length ≠ (sumW tr + 7) / 8 :=
  ⟨[128, 0, 0], [(128, 8, 130), (0, 8, 130)], by decide, by decide⟩

/-- Witness for `compress_flush_amended` at `data = [0]`,
`minCodeSize = 7`. -/
theorem compress_flush_amended_witness :
    1 ≤ 7 ∧ 7 ≤ 11 ∧
      compressRawT [0] 7 = some ([128, 0, 0], [(128, 8, 130), (0, 8, 130)]) ∧
      ([128, 0, 0] : List Nat).length =
        sumW [(128, 8, 130), (0, 8, 130)] / 8 + 1 ∧
      (sumW [(128, 8, 130), (0, 8, 130)] % 8 = 0 →
        ([128, 0, 0] : List Nat).getLast? = some 0) :=
  ⟨by decide, by decide, by decide,
    compress_flush_amended [0] 7 _ _ (by decide) (by decide) (by decide)⟩

/-- C2: when the dictionary would need to grow beyond what 12-bit codes
can address (`newcode > 2**codesize` with `codesize = 12`), the reset
branch of `compress` does not produce a reset dictionary and continue —
it fails (`bytes((chr(i),))` raises `TypeError` on Python 3; on Python 2
the rebuilt keys do not match `bchr`-built lookups, raising `KeyError` on
the next miss), modelled here as the step returning `none`. -/
theorem lzw_reset_crash (s : LZWState) (x c : Nat)
    (h1 : s.table.lookup (s.databuff ++ [x]) = none)
    (h2 : ((s.databuff ++ [x], s.newcode) :: s.table).lookup s.databuff = some c)
    (h3 : 2 ^ s.codesize < s.newcode + 1)
    (h4 : ¬ s.codesize < 12) :
    lzwStep s x = none := by
  simp only [lzwStep, h1, h2, if_pos h3, if_neg h4]

/-- Witness for `lzw_reset_crash` at the concrete saturated state
`lzwResetState`. -/
theorem lzw_reset_crash_witness :
    lzwResetState.table.lookup (lzwResetState.databuff ++ [1]) = none ∧
    ((lzwResetState.databuff ++ [1], lzwResetState.newcode) ::
      lzwResetState.table).lookup lzwResetState.databuff = some 0 ∧
    2 ^ lzwResetState.codesize < lzwResetState.newcode + 1 ∧
    ¬ lzwResetState.codesize < 12 ∧
    lzwStep lzwResetState 1 = none :=
  ⟨by decide, by decide, by decide, by decide,
    lzw_reset_crash lzwResetState 1 0 (by decide) (by decide) (by decide)
      (by decide)⟩

/-- C10: on the empty pixel sequence the end-of-input flush looks up the
empty outstanding prefix, which is never a dictionary key, so `compress`
fails instead of returning a byte sequence. -/
theorem compress_empty_fails (mcs : Nat) (h1 : 2 ≤ mcs) (h2 : mcs ≤ 8) :
    compress [] mcs = none := by
  have hl : ((List.range (2 ^ mcs)).map
      fun i => (([i] : List Nat), i)).lookup [] = none := by
    apply lookup_none_of_keys_ne
    intro p hp
    simp only [List.mem_map, List.mem_range] at hp
    obtain ⟨i, _, rfl⟩ := hp
    simp
  unfold compress compressRaw compressRawT lzwRun lzwFinish
  dsimp only [lzwInit]
  rw [hl]
  rfl

/-- Witness for `compress_empty_fails` at `minCodeSize = 2`. -/
theorem compress_empty_fails_witness :
    2 ≤ 2 ∧ 2 ≤ 8 ∧ compress [] 2 = none :=
  ⟨by decide, by decide, compress_empty_fails 2 (by decide) (by decide)⟩

theorem chunk255F_flatten (fuel : Nat) : ∀ l : List Nat, l.length ≤ fuel →
    (chunk255F fuel l).flatten = l := by
  induction fuel with
  | zero =>
    intro l hl
    cases l with
    | nil => rfl
    | cons x xs => simp at hl
  | succ fuel ih =>
    intro l hl
    cases l with
    | nil => rfl
    | cons x xs =>
      simp only [chunk255F, List.flatten_cons]
      rw [ih ((x :: xs).drop 255)
        (by simp only [List.length_drop, List.length_cons] at hl ⊢; omega)]
      exact List.take_append_drop 255 (x :: xs)

theorem chunk255F_mem (fuel : Nat) : ∀ (l : List Nat) (b : List Nat),
    l.length ≤ fuel → b ∈ chunk255F fuel l →
    1 ≤ b.length ∧ b.length ≤ 255 := by
  induction fuel with
  | zero =>
    intro l b hl hb
    cases l with
    | nil => simp [chunk255F] at hb
    | cons x xs => simp at hl
  | succ fuel ih =>
    intro l b hl hb
    cases l with
    | nil => simp [chunk255F] at hb
    | cons x xs =>
      simp only [chunk255F, List.mem_cons] at hb
      rcases hb with rfl | hb2
      · constructor
        · simp [List.length_take]
        · simp [List.length_take]
      · exact ih ((x :: xs).drop 255) b
          (by simp only [List.length_drop, List.length_cons] at hl ⊢; omega) hb2

theorem chunk255_flatten (l : List Nat) : (chunk255 l).flatten = l :=
  chunk255F_flatten l.length l (le_refl _)

theorem chunk255_mem (l : List Nat) (b : List Nat) (hb : b ∈ chunk255 l) :
    1 ≤ b.length ∧ b.length ≤ 255 :=
  chunk255F_mem l.length l b (le_refl _) hb

theorem chunk255_ne_nil (l : List Nat) (h : l ≠ []) : chunk255 l ≠ [] := by
  cases l with
  | nil => exact absurd rfl h
  | cons x xs => simp [chunk255, chunk255F]

theorem chunk255_two (l : List Nat) (h : 255 < l.length) :
    2 ≤ (chunk255 l).length := by
  unfold chunk255
  cases l with
  | nil => simp at h
  | cons x xs =>
    simp only [List.length_cons, chunk255F, List.length_cons] at h ⊢
    have hne : (x :: xs).drop 255 ≠ [] := by
      intro h0
      have hlen := congrArg List.length h0
      simp [List.length_drop] at hlen
      omega
    have h2 : chunk255F xs.length ((x :: xs).drop 255) ≠ [] := by
      cases hd : (x :: xs).drop 255 with
      | nil => exact absurd hd hne
      | cons y ys =>
        cases hf : xs.length with
        | zero => omega
        | succ n => simp [chunk255F]
    have h3 : 1 ≤ (chunk255F xs.length ((x :: xs).drop 255)).length :=
      List.length_pos.mpr h2
    have h4 : ((x :: xs).take 255 :: chunk255F xs.length ((x :: xs).drop 255)).length =
        (chunk255F xs.length ((x :: xs).drop 255)).length + 1 :=
      List.length_cons _ _
    omega

/-- C5: for a non-empty pixel sequence and `minCodeSize ∈ [2,8]`, a
successful `compress` run returns exactly the `minCodeSize` byte, one or
more sub-blocks each holding a length byte in `[1,255]` followed by that
many data bytes, and the `0x00` terminator; the concatenated sub-block
payloads are the raw compressed stream sliced consecutively, and a raw
stream longer than 255 bytes yields at least two sub-blocks. -/
theorem compress_framing (data : List Nat) (mcs : Nat) (res : List Nat)
    (hne : data ≠ []) (h1 : 2 ≤ mcs) (h2 : mcs ≤ 8)
    (h : compress data mcs = some res) :
    ∃ raw, compressRaw data mcs = some raw ∧
      chunk255 raw ≠ [] ∧
      (∀ b ∈ chunk255 raw, 1 ≤ b.length ∧ b.length ≤ 255) ∧
      (chunk255 raw).flatten = raw ∧
      res = mcs :: subBlockBytes (chunk255 raw) ++ [0] ∧
      (255 < raw.length → 2 ≤ (chunk255 raw).length) := by
  unfold compress at h
  rcases Option.map_eq_some'.mp h with ⟨raw, hraw, hres⟩
  have hrne : raw ≠ [] := by
    unfold compressRaw at hraw
    rcases Option.map_eq_some'.mp hraw with ⟨p, hp, he⟩
    obtain ⟨raw0, tr0⟩ := p
    simp only at he
    subst he
    exact (compressRawT_spec (by omega) (by omega) hp).2.2.2
  exact ⟨raw, hraw, chunk255_ne_nil raw hrne,
    fun b hb => chunk255_mem raw b hb, chunk255_flatten raw, hres.symm,
    fun hl => chunk255_two raw hl⟩

/-- Witness for `compress_framing` at `data = [0]`, `minCodeSize = 2`,
where `compress` returns `[2, 1, 4, 0]`. -/
theorem compress_framing_witness :
    ([0] : List Nat) ≠ [] ∧ 2 ≤ 2 ∧ 2 ≤ 8 ∧
      compress [0] 2 = some [2, 1, 4, 0] ∧
      ∃ raw, compressRaw [0] 2 = some raw ∧
        chunk255 raw ≠ [] ∧
        (∀ b ∈ chunk255 raw, 1 ≤ b.length ∧ b.length ≤ 255) ∧
        (chunk255 raw).flatten = raw ∧
        [2, 1, 4, 0] = 2 :: subBlockBytes (chunk255 raw) ++ [0] ∧
        (255 < raw.length → 2 ≤ (chunk255 raw).length) :=
  ⟨by decide, by decide, by decide, by decide,
    compress_framing [0] 2 [2, 1, 4, 0] (by decide) (by decide) (by decide)
      (by decide)⟩

theorem csLoopF_eq (fuel : Nat) : ∀ k s, s ≤ k → k - s ≤ fuel →
    csLoopF fuel (3 * 2 ^ (k + 1)) s = k := by
  induction fuel with
  | zero =>
    intro k s hs hf
    have : s = k := by omega
    subst this
    rfl
  | succ fuel ih =>
    intro k s hs hf
    by_cases he : s = k
    · subst he
      simp [csLoopF]
    · have hlt : s < k := by omega
      have hcond : 3 * 2 ^ (s + 1) < 3 * 2 ^ (k + 1) := by
        have := Nat.pow_lt_pow_right (a := 2) (by norm_num)
          (show s + 1 < k + 1 by omega)
        omega
      simp only [csLoopF, if_pos hcond]
      exact ih k (s + 1) (by omega) (by omega)

/-- C7: `ColorScheme` construction succeeds exactly on flat byte
sequences whose length is `3 * 2^(k+1)` for some `k ≥ 0`; on success the
stored `size` satisfies `3 * 2^(size+1) = length` and the table bytes are
kept unchanged; every other length trips the assert. -/
theorem colorscheme_spec (t : List Nat) :
    ((∃ cs, colorSchemeInit t = some cs) ↔ ∃ k, t.length = 3 * 2 ^ (k + 1)) ∧
    (∀ cs, colorSchemeInit t = some cs →
      t.length = 3 * 2 ^ (cs.size + 1) ∧ cs.table = t) := by
  constructor
  · constructor
    · rintro ⟨cs, hcs⟩
      simp only [colorSchemeInit] at hcs
      by_cases hc : 3 * 2 ^ (csLoopF t.length t.length 0 + 1) = t.length
      · exact ⟨csLoopF t.length t.length 0, hc.symm⟩
      · rw [if_neg hc] at hcs
        exact Option.noConfusion hcs
    · rintro ⟨k, hk⟩
      have hkb : k ≤ 3 * 2 ^ (k + 1) := by
        have ha := Nat.lt_two_pow k
        have hb : 2 ^ k ≤ 2 ^ (k + 1) :=
          Nat.pow_le_pow_right (by norm_num) (by omega)
        omega
      have hloop : csLoopF t.length t.length 0 = k := by
        rw [hk]
        exact csLoopF_eq _ k 0 (Nat.zero_le _) (by omega)
      refine ⟨⟨k, t⟩, ?_⟩
      simp only [colorSchemeInit, hloop]
      rw [if_pos hk.symm]
  · intro cs hcs
    simp only [colorSchemeInit] at hcs
    by_cases hc : 3 * 2 ^ (csLoopF t.length t.length 0 + 1) = t.length
    · rw [if_pos hc] at hcs
      obtain rfl := Option.some.inj hcs
      exact ⟨hc.symm, rfl⟩
    · rw [if_neg hc] at hcs
      exact Option.noConfusion hcs

/-- Witness for `colorscheme_spec` at the `lifewiki` palette
(12 bytes, `size = 1`). -/
theorem colorscheme_spec_witness :
    colorSchemeInit lifewikiTable = some lifewikiScheme ∧
    lifewikiTable.length = 3 * 2 ^ (lifewikiScheme.size + 1) ∧
    lifewikiScheme.table = lifewikiTable :=
  ⟨by decide,
    (colorscheme_spec lifewikiTable).2 lifewikiScheme (by decide)⟩

theorem nextGen_eq (params : Params) (t : Nat) :
    nextGen params t (t / params.time_per_gen) =
      (t + params.time_per_frame) / params.time_per_gen := by
  unfold nextGen
  have hmono : t / params.time_per_gen ≤
      (t + params.time_per_frame) / params.time_per_gen :=
    Nat.div_le_div_right (by omega)
  by_cases hlt : t / params.time_per_gen <
      (t + params.time_per_frame) / params.time_per_gen
  · rw [if_pos hlt]
    omega
  · rw [if_neg hlt]
    omega

theorem frameLoop_ne_canvas (C : FrameCtx) :
    ∀ (ts : List Nat) (gen : Nat),
      frameLoop C ts gen ≠ Except.error GifErr.canvasTooLarge := by
  intro ts
  induction ts with
  | nil =>
    intro gen h
    simp [frameLoop] at h
  | cons t ts ih =>
    intro gen h
    simp only [frameLoop] at h
    by_cases hc : cellsizeP C.params = 0
    · rw [if_pos hc] at h
      simp at h
    · rw [if_neg hc] at h
      cases hcomp : compress (renderFrame C t gen) (C.colors.size + 1) with
      | none =>
        rw [hcomp] at h
        simp at h
      | some comp =>
        rw [hcomp] at h
        cases hrec : frameLoop C ts (nextGen C.params t gen) with
        | error e =>
          rw [hrec] at h
          simp only at h
          have he : e = GifErr.canvasTooLarge := by
            injection h
          subst he
          exact ih _ hrec
        | ok p =>
          obtain ⟨chunks, tr⟩ := p
          rw [hrec] at h
          simp at h

theorem frameLoop_len (C : FrameCtx) :
    ∀ (ts : List Nat) (gen : Nat) (chunks : List (List Nat))
      (tr : List (Nat × Nat)),
      frameLoop C ts gen = Except.ok (chunks, tr) → tr.length = ts.length := by
  intro ts
  induction ts with
  | nil =>
    intro gen chunks tr h
    simp only [frameLoop] at h
    obtain ⟨h1, h2⟩ := Prod.mk.injEq _ _ _ _ ▸ Except.ok.inj h
    subst h2
    rfl
  | cons t ts ih =>
    intro gen chunks tr h
    simp only [frameLoop] at h
    by_cases hc : cellsizeP C.params = 0
    · rw [if_pos hc] at h
      exact Except.noConfusion h
    · rw [if_neg hc] at h
      cases hcomp : compress (renderFrame C t gen) (C.colors.size + 1) with
      | none =>
        rw [hcomp] at h
        exact Except.noConfusion h
      | some comp =>
        rw [hcomp] at h
        cases hrec : frameLoop C ts (nextGen C.params t gen) with
        | error e =>
          rw [hrec] at h
          exact Except.noConfusion h
        | ok p =>
          obtain ⟨chunks2, tr2⟩ := p
          rw [hrec] at h
          obtain ⟨h1, h2⟩ := Prod.mk.injEq _ _ _ _ ▸ Except.ok.inj h
          subst h2
          have hlen := ih (nextGen C.params t gen) chunks2 tr2 hrec
          simp only [List.length_cons, hlen]

theorem frameLoop_gen_aux (C : FrameCtx) (fuel : Nat) :
    ∀ (t0 : Nat) (chunks : List (List Nat)) (tr : List (Nat × Nat)),
      frameLoop C
          (pyRangeNatF fuel t0 (C.params.time_per_gen * C.params.gens)
            C.params.time_per_frame)
          (t0 / C.params.time_per_gen) = Except.ok (chunks, tr) →
      ∀ e ∈ tr, e.2 = e.1 / C.params.time_per_gen := by
  induction fuel with
  | zero =>
    intro t0 chunks tr h e he
    simp only [pyRangeNatF, frameLoop] at h
    obtain ⟨h1, h2⟩ := Prod.mk.injEq _ _ _ _ ▸ Except.ok.inj h
    subst h2
    simp at he
  | succ fuel ih =>
    intro t0 chunks tr h e he
    by_cases hcond : t0 < C.params.time_per_gen * C.params.gens ∧
        0 < C.params.time_per_frame
    · simp only [pyRangeNatF, if_pos hcond, frameLoop] at h
      by_cases hc : cellsizeP C.params = 0
      · rw [if_pos hc] at h
        exact Except.noConfusion h
      · rw [if_neg hc] at h
        cases hcomp : compress
            (renderFrame C t0 (t0 / C.params.time_per_gen))
            (C.colors.size + 1) with
        | none =>
          rw [hcomp] at h
          exact Except.noConfusion h
        | some comp =>
          rw [hcomp] at h
          cases hrec : frameLoop C
              (pyRangeNatF fuel (t0 + C.params.time_per_frame)
                (C.params.time_per_gen * C.params.gens)
                C.params.time_per_frame)
              (nextGen C.params t0 (t0 / C.params.time_per_gen)) with
          | error e2 =>
            rw [hrec] at h
            exact Except.noConfusion h
          | ok p =>
            obtain ⟨chunks2, tr2⟩ := p
            rw [hrec] at h
            obtain ⟨h1, h2⟩ := Prod.mk.injEq _ _ _ _ ▸ Except.ok.inj h
            subst h2
            rcases List.mem_cons.mp he with rfl | he2
            · rfl
            · rw [nextGen_eq] at hrec
              exact ih (t0 + C.params.time_per_frame) chunks2 tr2 hrec e he2
    · simp only [pyRangeNatF, if_neg hcond, frameLoop] at h
      obtain ⟨h1, h2⟩ := Prod.mk.injEq _ _ _ _ ▸ Except.ok.inj h
      subst h2
      simp at he

theorem makegifT_ok {colors : ColorScheme} {rect : Int × Int × Nat × Nat}
    {params : Params} {grid : Nat → Int → Int → Nat} {out : List Nat}
    {tr : List (Nat × Nat)}
    (h : makegifT colors rect params grid = Except.ok (out, tr)) :
    ∃ chunks,
      frameLoop ⟨colors, rect.1, rect.2.1, rect.2.2.1, rect.2.2.2, params, grid⟩
          (pyRangeNat 0 (params.time_per_gen * params.gens)
            params.time_per_frame) 0 = Except.ok (chunks, tr) ∧
      out = gifHeader ++
        (screendescBytes colors (canvasW params rect.2.2.1)
            (canvasH params rect.2.2.2) ++
          (colors.table ++ (applicBytes ++ (chunks.flatten ++ [0x3B])))) := by
  simp only [makegifT] at h
  by_cases h1 : 65536 ≤ canvasW params rect.2.2.1 ∨
      65536 ≤ canvasH params rect.2.2.2
  · rw [if_pos h1] at h
    exact Except.noConfusion h
  · rw [if_neg h1] at h
    by_cases h2 : params.time_per_frame = 0
    · rw [if_pos h2] at h
      exact Except.noConfusion h
    · rw [if_neg h2] at h
      cases hfl : frameLoop
          ⟨colors, rect.1, rect.2.1, rect.2.2.1, rect.2.2.2, params, grid⟩
          (pyRangeNat 0 (params.time_per_gen * params.gens)
            params.time_per_frame) 0 with
      | error e =>
        rw [hfl] at h
        exact Except.noConfusion h
      | ok p =>
        obtain ⟨chunks, tr0⟩ := p
        rw [hfl] at h
        obtain ⟨hout, htr⟩ := Prod.mk.injEq _ _ _ _ ▸ Except.ok.inj h
        subst htr
        exact ⟨chunks, rfl, hout.symm⟩

/-- C9: whenever a `makegif` run succeeds, the grid source observed while
rasterizing the frame at timestamp `t` is at exactly
`gen(t) = t / msPerGeneration` cumulative generations past the initial
state (after each frame the source is advanced by
`gen(t + msPerFrame) - gen(t)` generations, a zero advance issuing no run
call). -/
theorem makegif_gen_sync (colors : ColorScheme) (rect : Int × Int × Nat × Nat)
    (params : Params) (grid : Nat → Int → Int → Nat) (out : List Nat)
    (tr : List (Nat × Nat)) (htpg : 1 ≤ params.time_per_gen)
    (h : makegifT colors rect params grid = Except.ok (out, tr)) :
    ∀ e ∈ tr, e.2 = e.1 / params.time_per_gen := by
  obtain ⟨chunks, hfl, _⟩ := makegifT_ok h
  refine frameLoop_gen_aux
    ⟨colors, rect.1, rect.2.1, rect.2.2.1, rect.2.2.2, params, grid⟩
    (params.time_per_gen * params.gens - 0) 0 chunks tr ?_
  rw [Nat.zero_div]
  exact hfl

/-- Witness for `makegif_gen_sync`: the `params9` run renders frames at
times 0 and 1 with the grid at generations 0 and 1. -/
theorem makegif_gen_sync_witness :
    1 ≤ params9.time_per_gen ∧
      makegifT lifewikiScheme rect1 params9 grid0 =
        Except.ok (gifOut9, [(0, 0), (1, 1)]) ∧
      ∀ e ∈ ([(0, 0), (1, 1)] : List (Nat × Nat)),
        e.2 = e.1 / params9.time_per_gen :=
  ⟨by decide, rfl,
    makegif_gen_sync lifewikiScheme rect1 params9 grid0 gifOut9
      [(0, 0), (1, 1)] (by decide) rfl⟩

theorem pyRangeNatF_len (fuel : Nat) : ∀ s e st, 1 ≤ st → e - s ≤ fuel →
    (pyRangeNatF fuel s e st).length = (e - s + st - 1) / st := by
  induction fuel with
  | zero =>
    intro s e st h1 h2
    have hd : e - s = 0 := by omega
    simp only [pyRangeNatF, List.length_nil, hd]
    exact (Nat.div_eq_of_lt (by omega)).symm
  | succ fuel ih =>
    intro s e st h1 h2
    by_cases hc : s < e ∧ 0 < st
    · simp only [pyRangeNatF, if_pos hc, List.length_cons]
      rw [ih (s + st) e st h1 (by omega)]
      by_cases hst : st ≤ e - s
      · have h3 : e - (s + st) + st - 1 = e - s - 1 := by omega
        have h4 : e - s + st - 1 = e - s - 1 + st := by omega
        rw [h3, h4, Nat.add_div_right _ (by omega)]
      · have h3 : e - (s + st) = 0 := by omega
        have h4 : e - s + st - 1 = e - s - 1 + st := by omega
        rw [h3, h4, Nat.add_div_right _ (by omega)]
        rw [Nat.div_eq_of_lt (by omega), Nat.div_eq_of_lt (by omega)]
    · have hd : e - s = 0 := by omega
      simp only [pyRangeNatF, if_neg hc, List.length_nil, hd]
      exact (Nat.div_eq_of_lt (by omega)).symm

/-- C4 (amended): a successful run emits exactly
`ceil(totalDurationMs / msPerFrame)` frames — the loop walks frame times
`0, msPerFrame, ...` strictly below `totalDurationMs` — and this count is
at least 1; the floor quotient `gif_num_frames` that the claim describes
is computed only for the progress display. -/
theorem makegif_framecount_amended (colors : ColorScheme)
    (rect : Int × Int × Nat × Nat) (params : Params)
    (grid : Nat → Int → Int → Nat) (out : List Nat) (tr : List (Nat × Nat))
    (h1 : 1 ≤ params.gens) (h2 : 1 ≤ params.time_per_gen)
    (h3 : 1 ≤ params.time_per_frame)
    (h : makegifT colors rect params grid = Except.ok (out, tr)) :
    tr.length =
      (params.time_per_gen * params.gens + params.time_per_frame - 1) /
        params.time_per_frame ∧
    1 ≤ tr.length := by
  obtain ⟨chunks, hfl, _⟩ := makegifT_ok h
  have hlen := frameLoop_len _ _ _ _ _ hfl
  have hp : (pyRangeNat 0 (params.time_per_gen * params.gens)
      params.time_per_frame).length =
      (params.time_per_gen * params.gens - 0 + params.time_per_frame - 1) /
        params.time_per_frame :=
    pyRangeNatF_len _ _ _ _ h3 (le_refl _)
  have htot : 1 ≤ params.time_per_gen * params.gens := by
    have := Nat.mul_le_mul h2 h1
    omega
  rw [Nat.sub_zero] at hp
  constructor
  · rw [hlen, hp]
  · rw [hlen, hp]
    rw [Nat.le_div_iff_mul_le (by omega)]
    omega

/-- C4 (counterexample): with 1 generation of 1 ms rendered at 2 ms per
frame, the run emits 1 frame while the claim's
`totalFrames = totalDurationMs / msPerFrame = 1 / 2 = 0` (integer
division), so the emitted count is not the floor quotient. -/
theorem makegif_framecount_ctex :
    ∃ p, makegifT lifewikiScheme rect1 params4 grid0 = Except.ok p ∧
      p.2.length ≠
        params4.time_per_gen * params4.gens / params4.time_per_frame :=
  ⟨(gifOut4, [(0, 0)]), rfl, by decide⟩

/-- Witness for `makegif_framecount_amended` at the `params9` run
(2 frames, `ceil(2/1) = 2`). -/
theorem makegif_framecount_amended_witness :
    1 ≤ params9.gens ∧ 1 ≤ params9.time_per_gen ∧
      1 ≤ params9.time_per_frame ∧
      makegifT lifewikiScheme rect1 params9 grid0 =
        Except.ok (gifOut9, [(0, 0), (1, 1)]) ∧
      ([(0, 0), (1, 1)] : List (Nat × Nat)).length =
        (params9.time_per_gen * params9.gens + params9.time_per_frame - 1) /
          params9.time_per_frame ∧
      1 ≤ ([(0, 0), (1, 1)] : List (Nat × Nat)).length :=
  ⟨by decide, by decide, by decide, rfl,
    makegif_framecount_amended lifewikiScheme rect1 params9 grid0 gifOut9
      [(0, 0), (1, 1)] (by decide) (by decide) (by decide) rfl⟩

/-- C8: `makegif` fails with `CanvasTooLarge`, before emitting any output,
exactly when the derived canvas width `(p+g)*w + g` or height
`(p+g)*h + g` is at least 65536; in particular `pureCellSizePx = 14`,
`gridLineWidthPx = 2`, `width = 4681` gives canvas width
`(14+2)*4681+2 = 74898` and fails. -/
theorem makegif_canvas_guard :
    (∀ (colors : ColorScheme) (rect : Int × Int × Nat × Nat) (params : Params)
        (grid : Nat → Int → Int → Nat),
      makegif colors rect params grid = Except.error GifErr.canvasTooLarge ↔
        (65536 ≤ canvasW params rect.2.2.1 ∨
          65536 ≤ canvasH params rect.2.2.2)) ∧
    (14 + 2) * 4681 + 2 = 74898 ∧
    makegif lifewikiScheme (0, 0, 4681, 1) params8 grid0 =
      Except.error GifErr.canvasTooLarge := by
  refine ⟨?_, by norm_num, by rfl⟩
  intro colors rect params grid
  by_cases hcond : 65536 ≤ canvasW params rect.2.2.1 ∨
      65536 ≤ canvasH params rect.2.2.2
  · refine ⟨fun _ => hcond, fun _ => ?_⟩
    simp only [makegif, makegifT]
    rw [if_pos hcond]
    rfl
  · refine ⟨fun h => ?_, fun hr => absurd hr hcond⟩
    exfalso
    simp only [makegif, makegifT] at h
    rw [if_neg hcond] at h
    by_cases h2 : params.time_per_frame = 0
    · rw [if_pos h2] at h
      simp [Except.map] at h
    · rw [if_neg h2] at h
      cases hfl : frameLoop
          ⟨colors, rect.1, rect.2.1, rect.2.2.1, rect.2.2.2, params, grid⟩
          (pyRangeNat 0 (params.time_per_gen * params.gens)
            params.time_per_frame) 0 with
      | error e =>
        rw [hfl] at h
        simp only [Except.map] at h
        have he : e = GifErr.canvasTooLarge := by injection h
        subst he
        exact frameLoop_ne_canvas _ _ _ hfl
      | ok p =>
        obtain ⟨chunks, tr⟩ := p
        rw [hfl] at h
        simp [Except.map] at h

/-- C1 (amended): on every successful run the logical screen descriptor
emitted between the `GIF89a` signature and the global color table is
`width:u16le, height:u16le, packedFields:u8, backgroundIndex:u8 = 0,
pixelAspect:u8 = 0` with `packedFields = 0x80 + 0x10 + colorTableSize`
(the code adds `0x90`, setting the global-color-table flag and a
color-resolution field of 1, not the claim's `0x80 | colorTableSize`). -/
theorem makegif_lsd_amended (colors : ColorScheme)
    (rect : Int × Int × Nat × Nat) (params : Params)
    (grid : Nat → Int → Int → Nat) (out : List Nat) (tr : List (Nat × Nat))
    (hsz : colors.size ≤ 7)
    (h : makegifT colors rect params grid = Except.ok (out, tr)) :
    out.take 6 = gifHeader ∧
    (out.drop 6).take 7 =
      u16le (canvasW params rect.2.2.1) ++ u16le (canvasH params rect.2.2.2) ++
        [0x80 + 0x10 + colors.size, 0, 0] ∧
    (out.drop 13).take colors.table.length = colors.table := by
  obtain ⟨chunks, hfl, hout⟩ := makegifT_ok h
  subst hout
  have hh : gifHeader.length = 6 := rfl
  have hsd : (screendescBytes colors (canvasW params rect.2.2.1)
      (canvasH params rect.2.2.2)).length = 7 := rfl
  refine ⟨List.take_left' hh, ?_, ?_⟩
  · rw [List.drop_left' hh, List.take_left' hsd]
    unfold screendescBytes
    have hm : (colors.size + 0x90) % 256 = 0x80 + 0x10 + colors.size := by
      omega
    rw [hm]
  · rw [show (13 : Nat) = 6 + 7 from rfl, ← List.drop_drop,
      List.drop_left' hh, List.drop_left' hsd, List.take_left' rfl]

/-- C1 (counterexample): a concrete successful run whose packed-fields
byte (offset 10) is `0x91 = 145`, not the claim's
`0x80 | colorTableSize = 0x81`. -/
theorem makegif_lsd_ctex :
    (makegifT lifewikiScheme rect1 params1 grid0).toOption.map
        (fun p => (p.1.drop 10).head?) = some (some 145) ∧
    (145 : Nat) ≠ 0x80 ||| lifewikiScheme.size :=
  ⟨rfl, by decide⟩

/-- Witness for `makegif_lsd_amended` at the `params1` run. -/
theorem makegif_lsd_amended_witness :
    lifewikiScheme.size ≤ 7 ∧
      makegifT lifewikiScheme rect1 params1 grid0 =
        Except.ok (gifOut1, [(0, 0)]) ∧
      gifOut1.take 6 = gifHeader ∧
      (gifOut1.drop 6).take 7 =
        u16le (canvasW params1 rect1.2.2.1) ++
          u16le (canvasH params1 rect1.2.2.2) ++
          [0x80 + 0x10 + lifewikiScheme.size, 0, 0] ∧
      (gifOut1.drop 13).take lifewikiScheme.table.length =
        lifewikiScheme.table :=
  ⟨by decide, rfl,
    makegif_lsd_amended lifewikiScheme rect1 params1 grid0 gifOut1 [(0, 0)]
      (by decide) rfl⟩
